import Mathlib

/-!
Verification development for `pygaload.py`, a client for the MegaLoad
bootloader protocol (versions 3, 4, 5).

The development shallowly embeds the two components covered by the design
document:

* the handshake negotiator `doConnect` (a byte-driven state machine that
  assembles a device descriptor from single-byte geometry codes), and
* the page programmer `downloadFlash` (partitioning a sparse image into
  pages, checksumming, transmitting with bounded retry, and sending the
  `0xFFFF` terminator).

Serial I/O is modelled explicitly: the byte stream received during
negotiation is a `List Nat` (exhausting the list models the wall-clock
timeout), the per-page responses during programming are an oracle
`Nat → Option Nat` indexed by read count (`none` models a read timeout),
and everything the programmer writes to the wire is collected as a trace
of events.  Machine integers are modelled as `Nat` with explicit `% 256`
masking where the source masks (`& 0xFF`); the one signed comparison
(`lastAddr > flash - boot`, where Python subtraction may go negative) is
performed in `Int`.
-/

/-- The processor-code table of `pygaload.py` (code byte → processor name). -/
def Processors : List (Nat × String) :=
  [(0x41, "ATmega8"),
   (0x42, "ATmega16"),
   (0x43, "ATmega64"),
   (0x44, "ATmega128"),
   (0x45, "ATmega32"),
   (0x46, "ATmega162"),
   (0x47, "ATmega169"),
   (0x48, "ATmega8515"),
   (0x49, "ATmega8535"),
   (0x4A, "ATmega163"),
   (0x4B, "ATmega323"),
   (0x4C, "ATmega48"),
   (0x4D, "ATmega88"),
   (0x4E, "ATmega168"),
   (0x4F, "ATtiny2313"),
   (0x50, "ATtiny13"),
   (0x80, "ATmega165"),
   (0x81, "ATmega3250"),
   (0x82, "ATmega6450"),
   (0x83, "ATmega3290"),
   (0x84, "ATmega6490"),
   (0x85, "ATmega406"),
   (0x86, "ATmega640"),
   (0x87, "ATmega1280"),
   (0x88, "ATmega2560")]

/-- The flash-size table (code byte → flash size in bytes). -/
def FlashSize : List (Nat × Nat) :=
  [(0x67, 1024),
   (0x68, 2048),
   (0x69, 4096),
   (0x6C, 8192),
   (0x6D, 16384),
   (0x6E, 32768),
   (0x6F, 65536),
   (0x70, 2*65536),
   (0x71, 4*65536),
   (0x72, 40*1024)]

/-- The boot-size table (code byte → boot size IN WORDS, as in the source). -/
def BootSize : List (Nat × Nat) :=
  [(0x61, 128),
   (0x62, 256),
   (0x63, 512),
   (0x64, 1024),
   (0x65, 2048),
   (0x66, 4096)]

/-- The page-size table (code byte → page size in bytes).  `0x55` is the
MegaLoad 3 code for a 512-byte page, `0x56` the MegaLoad 4/5 code. -/
def PageSize : List (Nat × Nat) :=
  [(0x51, 32),
   (0x52, 64),
   (0x53, 128),
   (0x54, 256),
   (0x55, 512),
   (0x56, 512)]

/-- The EEPROM-size table (code byte → EEPROM size in bytes). -/
def EEPROMSize : List (Nat × Nat) :=
  [(0x2E, 64),
   (0x2F, 128),
   (0x30, 256),
   (0x31, 512),
   (0x32, 1024),
   (0x33, 2048),
   (0x34, 4096)]

/-- State constant: waiting for a bootloader sync character. -/
def CONNECT : Nat := 1

/-- State constant: received the `0x3E` sync character (MegaLoad 3). -/
def SYNCED3 : Nat := 2

/-- State constant: received the `0x55` sync character (MegaLoad 4). -/
def SYNCED4 : Nat := 3

/-- State constant: received the processor type. -/
def GOTPROC : Nat := 4

/-- State constant: received the flash size. -/
def GOTFLASH : Nat := 5

/-- State constant: received the boot size. -/
def GOTBOOT : Nat := 6

/-- State constant: received the page size. -/
def GOTPAGE : Nat := 7

/-- State constant: received the EEPROM size. -/
def GOTEEP : Nat := 8

/-- The descriptor object `P` assembled by `doConnect`.  In the Python
source, fields other than `loaderversion` are attributes that simply do
not exist until assigned; this is modelled with `Option` (`none` =
attribute never set). -/
structure Proc where
  loaderversion : Nat := 0
  proc : Option String := none
  flash : Option Nat := none
  boot : Option Nat := none
  page : Option Nat := none
  eeprom : Option Nat := none
  deriving DecidableEq

/-- Result of processing one received byte inside `doConnect`'s loop:
continue with a new state, return the descriptor (`return P`), or abort
the process (`sys.exit(1)`). -/
inductive StepRes where
  | next (state : Nat) (P : Proc)
  | done (P : Proc)
  | fatal
  deriving DecidableEq

/-- One iteration of the `doConnect` receive loop of `pygaload.py`
(lines 355-452), for one received byte `c`.  The branch structure mirrors
the source exactly; in particular, in the merged `SYNCED3/SYNCED4` branch
a byte that is not a processor code falls through the `SYNCED4`-specific
checks (where an unexpected byte is `sys.exit(1)`) and then, unless the
EvB workaround applies in `SYNCED3`, sets the state back to `CONNECT` —
so `0x55` (auto-OSCCAL) and `0x3E` (MegaLoad 5) received in `SYNCED4`
also land back in `CONNECT`, exactly as the source control flow does.
Replies written to the device (`0x55`/`0x3C` echoes) carry no information
for the properties below and are elided. -/
def step (workaround_evb : Bool) (state : Nat) (P : Proc) (c : Nat) : StepRes :=
  if state = CONNECT then
    if c = 0x55 then .next SYNCED4 { P with loaderversion := 4 }
    else if c = 0x3E then .next SYNCED3 { P with loaderversion := 3 }
    else .next CONNECT P
  else if state = SYNCED3 ∨ state = SYNCED4 then
    match Processors.lookup c with
    | some name => .next GOTPROC { P with proc := some name }
    | none =>
      if state = SYNCED4 ∧ c = 0x55 then .next CONNECT P
      else if state = SYNCED4 ∧ c = 0x3E then .next CONNECT { P with loaderversion := 5 }
      else if state = SYNCED4 then .fatal
      else if workaround_evb then
        match PageSize.lookup c with
        | some v => .next SYNCED3 { P with page := some v }
        | none => .fatal
      else .next CONNECT P
  else if state = GOTPROC then
    match FlashSize.lookup c with
    | some v => .next GOTFLASH { P with flash := some v }
    | none => .fatal
  else if state = GOTFLASH then
    match BootSize.lookup c with
    | some v => .next GOTBOOT { P with boot := some (v * 2) }
    | none => .fatal
  else if state = GOTBOOT then
    if workaround_evb then
      match EEPROMSize.lookup c with
      | some v => .next GOTEEP { P with eeprom := some v }
      | none => .fatal
    else
      match PageSize.lookup c with
      | some v => .next GOTPAGE { P with page := some v }
      | none => .fatal
  else if state = GOTPAGE then
    match EEPROMSize.lookup c with
    | some v => .next GOTEEP { P with eeprom := some v }
    | none => .fatal
  else if state = GOTEEP then
    if c = 0x21 then .done P
    else if c = 0x3E then .next GOTEEP P
    else .fatal
  else .next state P

/-- Outcome of a whole negotiation: a descriptor, a fatal protocol abort,
or the wall-clock timeout (modelled as exhausting the received stream). -/
inductive ConnectResult where
  | success (P : Proc)
  | fatal
  | timeout
  deriving DecidableEq

/-- The `doConnect` receive loop applied to a whole received byte stream. -/
def runConnect (w : Bool) : List Nat → Nat → Proc → ConnectResult
  | [], _, _ => .timeout
  | c :: rest, state, P =>
    match step w state P c with
    | .next st2 P2 => runConnect w rest st2 P2
    | .done P2 => .success P2
    | .fatal => .fatal

/-- `doConnect` of `pygaload.py`: start in `CONNECT` with a fresh `Proc`
(`loaderversion = 0`, no other field set) and process the received bytes. -/
def doConnect (w : Bool) (input : List Nat) : ConnectResult :=
  runConnect w input CONNECT {}

/-- Geometry fields of the descriptor that `downloadFlash` reads
(`proc.flash`, `proc.boot`, `proc.page`, all byte counts).  Python would
raise `AttributeError` if one of them were missing, so the programmer is
modelled over a record where all three are present. -/
structure ProcGeom where
  flash : Nat
  boot : Nat
  page : Nat
  deriving DecidableEq

/-- Cursor of `downloadFlash`'s scan over `datalines`: the index
`datalinesix` of the current record, the next write address `addr`, the
current record's `data` array (kept explicitly because the source keeps
reading the stale `data` after the record list is exhausted), and the
index `addrix` of the next unread byte of `data`. -/
structure FillSt where
  dix : Nat
  addr : Nat
  data : List Nat
  addrix : Nat
  deriving DecidableEq

/-- The all-`0xFF` erase pattern `emptypage` of `downloadFlash`. -/
def emptypage (psz : Nat) : List Nat := List.replicate psz 0xFF

/-- The checksum byte sent after a page: the source sums every byte of
`towrite` in a loop and transmits `checksum & 0xFF`. -/
def checksumByte (b : List Nat) : Nat := (b.foldl (fun acc x => acc + x) 0) % 256

/-- One event written to the serial link by `downloadFlash`: a page
transmission (`[page_hi][page_lo][buffer][checksum]`, the checksum field
already masked to 8 bits), or the final `b'\xFF\xFF'` terminator. -/
inductive Ev where
  | send (pg : Nat) (buf : List Nat) (chk : Nat)
  | fin
  deriving DecidableEq

/-- Raw bytes of one event, exactly as the source writes them:
`(pagenum >> 8) & 0xFF`, `pagenum & 0xFF`, the buffer, the checksum;
the terminator is the two bytes `0xFF 0xFF` with nothing following. -/
def Ev.bytes : Ev → List Nat
  | .send pg buf chk => (pg / 256 % 256) :: (pg % 256) :: (buf ++ [chk])
  | .fin => [0xFF, 0xFF]

/-- Flatten an event trace to the raw byte stream written to the wire. -/
def wireBytes (evs : List Ev) : List Nat := (evs.map Ev.bytes).flatten

/-- The inner copying loop of `downloadFlash` (lines 512-515):
`while (addrix < len(data)) and (addr < endAddr): page[addr-startAddr] =
data[addrix]; addrix += 1; addr += 1`.  The loop advances `addrix` every
iteration, so `data.length` steps of fuel always suffice; the fuel is
structural so that the definition evaluates inside the kernel. -/
def copyWhile (startAddr endAddr : Nat) (data : List Nat) :
    Nat → List Nat → Nat → Nat → List Nat × Nat × Nat
  | 0, page, addr, addrix => (page, addr, addrix)
  | fuel+1, page, addr, addrix =>
    if h : addrix < data.length ∧ addr < endAddr then
      copyWhile startAddr endAddr data fuel
        (page.set (addr - startAddr) data[addrix]) (addr + 1) (addrix + 1)
    else (page, addr, addrix)

/-- The record-advancing `while 1` loop of `downloadFlash` (lines
511-527) that fills one page buffer.  Each pass runs the inner copying
loop, then either advances to the next record of `datalines` (loading
its start address and data, breaking instead when the record list is
exhausted) or breaks because `addr` reached the end of the page.  Each
recursive pass strictly increases `dix`, so `dl.length + 1` fuel always
suffices; again the fuel is structural for kernel evaluation. -/
def fillLoop (dl : List (Nat × List Nat)) (startAddr endAddr : Nat) :
    Nat → List Nat → FillSt → List Nat × FillSt
  | 0, page, st => (page, st)
  | fuel+1, page, st =>
    let r := copyWhile startAddr endAddr st.data st.data.length page st.addr st.addrix
    if r.2.2 ≥ st.data.length then
      if h : st.dix + 1 < dl.length then
        let rec2 := dl[st.dix + 1]
        if rec2.1 ≥ endAddr then (r.1, ⟨st.dix + 1, rec2.1, rec2.2, 0⟩)
        else fillLoop dl startAddr endAddr fuel r.1 ⟨st.dix + 1, rec2.1, rec2.2, 0⟩
      else (r.1, ⟨st.dix + 1, r.2.1, st.data, r.2.2⟩)
    else (r.1, ⟨st.dix, r.2.1, st.data, r.2.2⟩)

/-- The per-page retry loop of `downloadFlash` (lines 532-584):
`for tries in range(3)`, each iteration transmitting the page number
(MSB first), the buffer, and the masked checksum, then reading one
response: `0x21` breaks with success, `0x40` retries, any other byte or
a read timeout (`none`) aborts the download, and exhausting the three
tries aborts via the loop's `else` clause.  Arguments: the response
oracle indexed by read count, the current read count `k`, the page
number, the buffer, and the remaining tries.  Returns (page accepted?,
events sent, new read count). -/
def retryLoop (resp : Nat → Option Nat) (k : Nat) (pg : Nat) (page : List Nat) :
    Nat → Bool × List Ev × Nat
  | 0 => (false, [], k)
  | t+1 =>
    let ev := Ev.send pg page (checksumByte page)
    match resp k with
    | none => (false, [ev], k + 1)
    | some c =>
      if c = 0x21 then (true, [ev], k + 1)
      else if c = 0x40 then
        let rc := retryLoop resp (k + 1) pg page t
        (rc.1, ev :: rc.2.1, rc.2.2)
      else (false, [ev], k + 1)

/-- The `for pagenum in range(NumPages)` loop of `downloadFlash` (lines
497-591): skip the page when the next byte to write is already past it
(`continue`), otherwise fill the page buffer from the erase pattern,
skip transmission when the buffer equals the erase pattern, otherwise
run the retry loop; abort the whole download when the retry loop failed,
and append the `0xFFFF` terminator after the last page. -/
def pageLoop (dl : List (Nat × List Nat)) (psz : Nat) (resp : Nat → Option Nat) :
    List Nat → FillSt → Nat → Bool × List Ev
  | [], _, _ => (true, [Ev.fin])
  | pg :: rest, st, k =>
    let startAddr := pg * psz
    let endAddr := startAddr + psz
    if st.addr ≥ endAddr then pageLoop dl psz resp rest st k
    else
      let r := fillLoop dl startAddr endAddr (dl.length + 1) (emptypage psz) st
      if r.1 = emptypage psz then pageLoop dl psz resp rest r.2 k
      else
        let rc := retryLoop resp k pg r.1 3
        if rc.1 then
          let r2 := pageLoop dl psz resp rest r.2 rc.2.2
          (r2.1, rc.2.1 ++ r2.2)
        else (false, rc.2.1)

/-- The "HEX file contents extends into bootloader" check of
`downloadFlash` (lines 470-474): the end address of the last element of
the (sorted) `datalines` list.  `readHEX` guarantees the list is
nonempty and sorted by start address; on an empty list Python would
raise, here the default record `(0, [])` is used. -/
def lastRecEnd (dl : List (Nat × List Nat)) : Nat :=
  (dl.getLastD (0, [])).1 + (dl.getLastD (0, [])).2.length

/-- The first geometry precondition of `downloadFlash`, as the source
computes it: `lastAddr > proc.flash - proc.boot`, with the subtraction
taken in `Int` because Python integers may go negative. -/
def hexTooBig (proc : ProcGeom) (dl : List (Nat × List Nat)) : Bool :=
  (lastRecEnd dl : Int) > (proc.flash : Int) - (proc.boot : Int)

/-- `downloadFlash` of `pygaload.py` (lines 464-591), over the geometry,
the parsed-and-sorted `datalines`, and the response oracle.  The three
geometry preconditions are checked first, each returning failure with an
empty transmission trace; then the page loop runs with the cursor
initialised to the first record.  Returns (success flag, trace of wire
events). -/
def downloadFlash (proc : ProcGeom) (dl : List (Nat × List Nat))
    (resp : Nat → Option Nat) : Bool × List Ev :=
  if hexTooBig proc dl then (false, [])
  else
    let NumPages := proc.flash / proc.page
    if NumPages * proc.page ≠ proc.flash then (false, [])
    else
      let NumPages2 := NumPages - proc.boot / proc.page
      if NumPages2 * proc.page + proc.boot ≠ proc.flash then (false, [])
      else
        pageLoop dl proc.page resp (List.range NumPages2)
          ⟨0, (dl.headD (0, [])).1, (dl.headD (0, [])).2, 0⟩ 0

/-- Sparse-image lookup: the byte a (sorted, disjoint) `datalines` list
associates with address `a` — the first record whose address range
contains `a`, at the corresponding offset. -/
def imageGet (dl : List (Nat × List Nat)) (a : Nat) : Option Nat :=
  dl.findSome? (fun r => if r.1 ≤ a ∧ a < r.1 + r.2.length then r.2[a - r.1]? else none)

/-- The page buffer the design document specifies for page `pg`: at each
offset `i`, the image's byte at address `pg * psz + i` when populated,
else the erase value `0xFF`. -/
def specPage (dl : List (Nat × List Nat)) (psz pg : Nat) : List Nat :=
  (List.range psz).map (fun i => (imageGet dl (pg * psz + i)).getD 0xFF)

/-- Well-formed sparse image: records are sorted by start address and
pairwise disjoint (each record ends no later than any later record
starts).  This is the representation invariant of the sparse
address-to-byte mapping of the design document. -/
def WFimage (dl : List (Nat × List Nat)) : Prop :=
  dl.Pairwise (fun r1 r2 => r1.1 + r1.2.length ≤ r2.1)

/-- The cursor state `downloadFlash`'s scan is in when it reaches page
`pg` (state before processing that page number), replaying the per-page
updates of the page loop. -/
def scanSt (dl : List (Nat × List Nat)) (psz : Nat) : Nat → FillSt
  | 0 => ⟨0, (dl.headD (0, [])).1, (dl.headD (0, [])).2, 0⟩
  | pg+1 =>
    let st := scanSt dl psz pg
    if st.addr ≥ pg * psz + psz then st
    else (fillLoop dl (pg * psz) (pg * psz + psz) (dl.length + 1) (emptypage psz) st).2

/-- The page buffer `downloadFlash` builds for page `pg`.  When the scan
skips the page (`continue`, because the next byte to write is past it)
no buffer is materialised and the page is left in the erased state, so
the buffer is the erase pattern. -/
def builtPage (dl : List (Nat × List Nat)) (psz pg : Nat) : List Nat :=
  let st := scanSt dl psz pg
  if st.addr ≥ pg * psz + psz then emptypage psz
  else (fillLoop dl (pg * psz) (pg * psz + psz) (dl.length + 1) (emptypage psz) st).1

/-- The unconsumed remainder of the image as seen from cursor `st`: the
rest of the current record followed by all later records (empty once the
record list is exhausted). -/
def restOf (dl : List (Nat × List Nat)) (st : FillSt) : List (Nat × List Nat) :=
  if st.dix < dl.length then (st.addr, st.data.drop st.addrix) :: dl.drop (st.dix + 1)
  else []

/-- Shape invariant of the scan cursor: either the cursor is on record
`dix` of `datalines` with `data` that record's bytes, `addrix` within
it, and `addr` the corresponding absolute address — or the record list
is exhausted and the stale `data` is fully consumed. -/
def ShapeInv (dl : List (Nat × List Nat)) (st : FillSt) : Prop :=
  (∃ h : st.dix < dl.length,
     st.data = dl[st.dix].2 ∧
     st.addrix ≤ st.data.length ∧
     st.addr = dl[st.dix].1 + st.addrix)
  ∨ (dl.length ≤ st.dix ∧ st.data.length ≤ st.addrix)

/-- Loop invariant of the page scan at page boundary `B`: the cursor is
well-shaped, it has not fallen behind the boundary while a record is
active, and the unconsumed remainder agrees with the full image on every
address from `B` on. -/
def InvAt (dl : List (Nat × List Nat)) (st : FillSt) (B : Nat) : Prop :=
  ShapeInv dl st ∧
  (st.dix < dl.length → B ≤ st.addr) ∧
  (∀ a, B ≤ a → imageGet dl a = imageGet (restOf dl st) a)


/-- All five geometry fields of a descriptor are set and the protocol
variant has been determined (3, 4 or 5). -/
def allSet (P : Proc) : Prop :=
  P.proc.isSome ∧ P.flash.isSome ∧ P.boot.isSome ∧ P.page.isSome ∧ P.eeprom.isSome ∧
    (P.loaderversion = 3 ∨ P.loaderversion = 4 ∨ P.loaderversion = 5)

/-- State invariant of the negotiation without the EvB workaround: each
state past a geometry byte implies the corresponding descriptor fields
are set, and any post-sync state implies the variant is known. -/
def fieldsInv (state : Nat) (P : Proc) : Prop :=
  ((state = SYNCED3 ∨ state = SYNCED4) →
     (P.loaderversion = 3 ∨ P.loaderversion = 4 ∨ P.loaderversion = 5)) ∧
  ((state = GOTPROC ∨ state = GOTFLASH ∨ state = GOTBOOT ∨ state = GOTPAGE ∨ state = GOTEEP) →
     (P.proc.isSome ∧ (P.loaderversion = 3 ∨ P.loaderversion = 4 ∨ P.loaderversion = 5))) ∧
  ((state = GOTFLASH ∨ state = GOTBOOT ∨ state = GOTPAGE ∨ state = GOTEEP) → P.flash.isSome) ∧
  ((state = GOTBOOT ∨ state = GOTPAGE ∨ state = GOTEEP) → P.boot.isSome) ∧
  ((state = GOTPAGE ∨ state = GOTEEP) → P.page.isSome) ∧
  (state = GOTEEP → P.eeprom.isSome)

set_option maxHeartbeats 1000000 in
theorem step_preserves_fieldsInv (state : Nat) (P : Proc) (c : Nat)
    (h : fieldsInv state P) :
    (∀ st2 P2, step false state P c = .next st2 P2 → fieldsInv st2 P2) ∧
    (∀ P2, step false state P c = .done P2 → allSet P2) := by
  obtain ⟨h1, h2, h3, h4, h5, h6⟩ := h
  constructor
  · intro st2 P2 heq
    unfold step at heq
    repeat' split at heq
    all_goals cases heq
    all_goals
      first
      | exact ⟨h1, h2, h3, h4, h5, h6⟩
      | simp_all [fieldsInv, CONNECT, SYNCED3, SYNCED4, GOTPROC, GOTFLASH,
          GOTBOOT, GOTPAGE, GOTEEP]
  · intro P2 heq
    unfold step at heq
    repeat' split at heq
    all_goals cases heq
    all_goals
      simp_all [allSet, CONNECT, SYNCED3, SYNCED4, GOTPROC, GOTFLASH,
        GOTBOOT, GOTPAGE, GOTEEP]

theorem runConnect_allSet (input : List Nat) :
    ∀ (state : Nat) (P : Proc), fieldsInv state P →
      ∀ Q, runConnect false input state P = .success Q → allSet Q := by
  induction input with
  | nil => intro state P _ Q h; cases h
  | cons c rest ih =>
    intro state P hInv Q h
    unfold runConnect at h
    cases hs : step false state P c with
    | next st2 P2 =>
      rw [hs] at h
      exact ih st2 P2 ((step_preserves_fieldsInv state P c hInv).1 st2 P2 hs) Q h
    | done P2 =>
      rw [hs] at h
      cases h
      exact (step_preserves_fieldsInv state P c hInv).2 _ hs
    | fatal =>
      rw [hs] at h
      cases h

/-- C9, counterexample: with the EvB workaround enabled, a byte stream
that syncs (`0x3E`), then sends processor, flash, boot and EEPROM codes
and the `0x21` start byte makes `doConnect` terminate successfully with
a Descriptor whose `page` field was never set — refuting the claim that
every successful termination has all five geometry fields set. -/
theorem C9_counterexample :
    doConnect true [0x3E, 0x41, 0x67, 0x61, 0x2E, 0x21]
        = .success ⟨3, some "ATmega8", some 1024, some 256, none, some 64⟩ ∧
      (⟨3, some "ATmega8", some 1024, some 256, none, some 64⟩ : Proc).page = none := by
  decide

/-- C9 (amended): without the EvB workaround, whenever the Negotiator
terminates successfully all five geometry fields and the protocol
variant are set; and in the completion state `GOTEEP`, byte `0x3E` is
ignored, only byte `0x21` finalizes and returns the Descriptor, and any
other byte aborts.  (Under the workaround the `page` field may remain
unset, as the counterexample shows.) -/
theorem C9_amended :
    (∀ (input : List Nat) (Q : Proc), doConnect false input = .success Q →
       Q.proc.isSome ∧ Q.flash.isSome ∧ Q.boot.isSome ∧ Q.page.isSome ∧ Q.eeprom.isSome ∧
         (Q.loaderversion = 3 ∨ Q.loaderversion = 4 ∨ Q.loaderversion = 5)) ∧
    (∀ (w : Bool) (P : Proc), step w GOTEEP P 0x3E = .next GOTEEP P) ∧
    (∀ (w : Bool) (P : Proc), step w GOTEEP P 0x21 = .done P) ∧
    (∀ (w : Bool) (P : Proc) (c : Nat), c ≠ 0x21 → c ≠ 0x3E → step w GOTEEP P c = .fatal) := by
  refine ⟨?_, ?_, ?_, ?_⟩
  · intro input Q h
    have h0 : fieldsInv CONNECT ({} : Proc) := by
      simp [fieldsInv, CONNECT, SYNCED3, SYNCED4, GOTPROC, GOTFLASH, GOTBOOT, GOTPAGE, GOTEEP]
    exact runConnect_allSet input CONNECT {} h0 Q h
  · intro w P
    simp [step, CONNECT, SYNCED3, SYNCED4, GOTPROC, GOTFLASH, GOTBOOT, GOTPAGE, GOTEEP]
  · intro w P
    simp [step, CONNECT, SYNCED3, SYNCED4, GOTPROC, GOTFLASH, GOTBOOT, GOTPAGE, GOTEEP]
  · intro w P c hc1 hc2
    simp [step, CONNECT, SYNCED3, SYNCED4, GOTPROC, GOTFLASH, GOTBOOT, GOTPAGE, GOTEEP,
      hc1, hc2]

/-- C9, witness: the amended theorem applied to a concrete conforming
run (sync `0x55`, the five geometry codes in canonical order, `0x21`). -/
theorem C9_witness :
    (⟨4, some "ATmega32", some 32768, some 256, some 32, some 64⟩ : Proc).page.isSome = true :=
  (C9_amended.1 [0x55, 0x45, 0x6E, 0x61, 0x51, 0x2E, 0x21]
    ⟨4, some "ATmega32", some 32768, some 256, some 32, some 64⟩ (by decide)).2.2.2.1

/-- C8: for every boot-size code byte received in state `GOTFLASH`, the
boot size stored into the Descriptor is the table's word count doubled
to a byte count (`P.boot = BootSize[c]*2`), moving to `GOTBOOT`. -/
theorem C8_thm (w : Bool) (P : Proc) (c v : Nat)
    (h : BootSize.lookup c = some v) :
    step w GOTFLASH P c = .next GOTBOOT { P with boot := some (v * 2) } := by
  simp [step, CONNECT, SYNCED3, SYNCED4, GOTPROC, GOTFLASH, GOTBOOT, GOTPAGE, GOTEEP, h]

/-- C8, witness: the boot-size theorem at code `0x64` (1024 words),
stored as 2048 bytes. -/
theorem C8_witness :
    step false GOTFLASH {} 0x64 = .next GOTBOOT ⟨0, none, none, some 2048, none, none⟩ :=
  C8_thm false {} 0x64 1024 (by decide)

/-- C1, counterexample: the same five geometry codes fed in two arrival
orders after the `0x55` sync.  In the canonical order (processor, flash,
boot, page, eeprom) negotiation succeeds; with just the first two bytes
swapped it aborts fatally — so the resulting Descriptor is not
independent of arrival order, and bytes are not matched against
"whichever field is still unset". -/
theorem C1_counterexample :
    doConnect false [0x55, 0x45, 0x6E, 0x61, 0x51, 0x2E, 0x21]
        = .success ⟨4, some "ATmega32", some 32768, some 256, some 32, some 64⟩ ∧
      doConnect false [0x55, 0x6E, 0x45, 0x61, 0x51, 0x2E, 0x21] = .fatal := by
  decide

/-- C1 (amended): the Descriptor's field values are determined by the
geometry tables, but only the fixed arrival order processor, flash,
boot, page, eeprom is accepted (after a `0x55` sync, workaround
disabled): any five codes in that order produce the Descriptor with the
table values (boot doubled to bytes), while a first geometry byte that
is not a processor code aborts negotiation fatally instead of being
matched against a later field's table. -/
theorem C1_amended :
    (∀ cp nm cf vf cb vb cpg vpg ce ve,
       Processors.lookup cp = some nm →
       FlashSize.lookup cf = some vf →
       BootSize.lookup cb = some vb →
       PageSize.lookup cpg = some vpg →
       EEPROMSize.lookup ce = some ve →
       doConnect false [0x55, cp, cf, cb, cpg, ce, 0x21]
         = .success ⟨4, some nm, some vf, some (vb * 2), some vpg, some ve⟩) ∧
    (∀ (P : Proc) (c : Nat), Processors.lookup c = none → c ≠ 0x55 → c ≠ 0x3E →
       step false SYNCED4 P c = .fatal) := by
  constructor
  · intro cp nm cf vf cb vb cpg vpg ce ve hp hf hb hpg he
    simp [doConnect, runConnect, step, CONNECT, SYNCED3, SYNCED4, GOTPROC, GOTFLASH,
      GOTBOOT, GOTPAGE, GOTEEP, hp, hf, hb, hpg, he]
  · intro P c hc h55 h3E
    simp [step, CONNECT, SYNCED3, SYNCED4, GOTPROC, GOTFLASH, GOTBOOT, GOTPAGE, GOTEEP,
      hc, h55, h3E]

/-- C1, witness: the amended canonical-order run at concrete codes
(ATmega128, 64k flash, 512-word boot, 128-byte page, 512-byte EEPROM). -/
theorem C1_witness :
    doConnect false [0x55, 0x44, 0x6F, 0x63, 0x53, 0x31, 0x21]
      = .success ⟨4, some "ATmega128", some 65536, some 1024, some 128, some 512⟩ :=
  C1_amended.1 0x44 "ATmega128" 0x6F 65536 0x63 512 0x53 128 0x31 512
    (by decide) (by decide) (by decide) (by decide) (by decide)

/-- C2, counterexample: the byte `0x00` is in no geometry table, yet
received just after a `0x55` sync (state `SYNCED4`) it makes the
Negotiator abort fatally (`sys.exit(1)` printing "Unexpected processor
type code") instead of returning to `CONNECT`. -/
theorem C2_counterexample :
    Processors.lookup 0x00 = none ∧ FlashSize.lookup 0x00 = none ∧
      BootSize.lookup 0x00 = none ∧ PageSize.lookup 0x00 = none ∧
      EEPROMSize.lookup 0x00 = none ∧
      step false SYNCED4 ⟨4, none, none, none, none, none⟩ 0x00 = .fatal ∧
      doConnect false [0x55, 0x00] = .fatal := by
  decide

/-- C2 (amended): in `CONNECT`, any byte other than the two sync bytes
leaves the Negotiator in `CONNECT` with the Descriptor untouched; in
`SYNCED3` (workaround disabled), any byte that is not a processor code
returns to `CONNECT` with the Descriptor untouched; but in `SYNCED4`, a
byte that is not a processor code and is neither `0x55` nor `0x3E`
aborts fatally rather than re-syncing. -/
theorem C2_amended :
    (∀ (w : Bool) (P : Proc) (c : Nat), c ≠ 0x55 → c ≠ 0x3E →
       step w CONNECT P c = .next CONNECT P) ∧
    (∀ (P : Proc) (c : Nat), Processors.lookup c = none →
       step false SYNCED3 P c = .next CONNECT P) ∧
    (∀ (P : Proc) (c : Nat), Processors.lookup c = none → c ≠ 0x55 → c ≠ 0x3E →
       step false SYNCED4 P c = .fatal) := by
  refine ⟨?_, ?_, ?_⟩
  · intro w P c h55 h3E
    simp [step, CONNECT, SYNCED3, SYNCED4, h55, h3E]
  · intro P c hc
    simp [step, CONNECT, SYNCED3, SYNCED4, hc]
  · intro P c hc h55 h3E
    simp [step, CONNECT, SYNCED3, SYNCED4, hc, h55, h3E]

/-- C2, witness: the amended theorem at byte `0x99` (in no table) in
state `SYNCED3`: back to `CONNECT`, descriptor unchanged. -/
theorem C2_witness :
    step false SYNCED3 ⟨3, none, none, none, none, none⟩ 0x99
      = .next CONNECT ⟨3, none, none, none, none, none⟩ :=
  C2_amended.2.1 ⟨3, none, none, none, none, none⟩ 0x99 (by decide)

theorem downloadFlash_precheck (proc : ProcGeom) (dl : List (Nat × List Nat))
    (resp : Nat → Option Nat)
    (h : hexTooBig proc dl = true ∨
         (proc.flash / proc.page) * proc.page ≠ proc.flash ∨
         (proc.flash / proc.page - proc.boot / proc.page) * proc.page + proc.boot
           ≠ proc.flash) :
    downloadFlash proc dl resp = (false, []) := by
  unfold downloadFlash
  by_cases h1 : hexTooBig proc dl = true
  · simp [h1]
  · by_cases h2 : (proc.flash / proc.page) * proc.page ≠ proc.flash
    · simp [h1, h2]
    · rcases h with h | h | h
      · exact absurd h h1
      · exact absurd h h2
      · simp [h1, h2, h]

/-- C3: `downloadFlash` checks its three geometry preconditions (last
image record not extending past `flash − boot`, flash an exact multiple
of the page size, boot an exact multiple of the page size) before
anything is written, and on any violation it returns failure with an
empty transmission trace. -/
theorem C3_thm (proc : ProcGeom) (dl : List (Nat × List Nat))
    (resp : Nat → Option Nat)
    (h : hexTooBig proc dl = true ∨
         (proc.flash / proc.page) * proc.page ≠ proc.flash ∨
         (proc.flash / proc.page - proc.boot / proc.page) * proc.page + proc.boot
           ≠ proc.flash) :
    downloadFlash proc dl resp = (false, []) :=
  downloadFlash_precheck proc dl resp h

/-- C3, witness: an image whose last record runs from 31740 to 31750,
past `flash − boot = 31744`, is rejected with nothing transmitted. -/
theorem C3_witness :
    downloadFlash ⟨32768, 1024, 128⟩ [(31740, List.replicate 10 0)]
      (fun _ => some 0x21) = (false, []) :=
  C3_thm ⟨32768, 1024, 128⟩ [(31740, List.replicate 10 0)] (fun _ => some 0x21)
    (Or.inl (by decide))

set_option maxRecDepth 10000 in
/-- C10: the image-too-large check inspects only the record with the
largest start address: (i) two sorted record lists with the same last
record decide alike; (ii) when the check fires the download is rejected
with nothing transmitted; (iii) a last record ending exactly at
`flash − boot` is accepted; (iv) concretely, with sorted records
`(31000, 800 bytes)` and `(31700, 1 byte)` the check passes even though
the image populates address 31790, beyond `flash − boot = 31744`. -/
theorem C10_thm :
    (∀ (proc : ProcGeom) (dl1 dl2 : List (Nat × List Nat)),
       dl1.getLastD (0, []) = dl2.getLastD (0, []) →
       hexTooBig proc dl1 = hexTooBig proc dl2) ∧
    (∀ (proc : ProcGeom) (dl : List (Nat × List Nat)) (resp : Nat → Option Nat),
       hexTooBig proc dl = true → downloadFlash proc dl resp = (false, [])) ∧
    (∀ (proc : ProcGeom) (dl : List (Nat × List Nat)),
       proc.boot ≤ proc.flash → lastRecEnd dl = proc.flash - proc.boot →
       hexTooBig proc dl = false) ∧
    (hexTooBig ⟨32768, 1024, 128⟩ [(31000, List.replicate 800 0), (31700, [0])] = false ∧
       imageGet [(31000, List.replicate 800 0), (31700, [0])] 31790 = some 0 ∧
       32768 - 1024 ≤ 31790 ∧
       List.Pairwise (fun r1 r2 => r1.1 ≤ r2.1)
         [((31000 : Nat), List.replicate 800 (0 : Nat)), (31700, [0])]) := by
  refine ⟨?_, ?_, ?_, ?_⟩
  · intro proc dl1 dl2 h
    unfold hexTooBig lastRecEnd
    rw [h]
  · intro proc dl resp h
    exact downloadFlash_precheck proc dl resp (Or.inl h)
  · intro proc dl hbf h
    unfold hexTooBig
    rw [h]
    simp only [decide_eq_false_iff_not, not_lt]
    omega
  · refine ⟨by decide, by decide, by decide, by decide⟩

/-- C10, witness: the last-record-only conjunct applied to two record
lists sharing the last record `(5, [2])`. -/
theorem C10_witness :
    hexTooBig ⟨100, 0, 1⟩ [(0, [1]), (5, [2])] = hexTooBig ⟨100, 0, 1⟩ [(5, [2])] :=
  C10_thm.1 ⟨100, 0, 1⟩ [(0, [1]), (5, [2])] [(5, [2])] (by decide)

theorem retryLoop_length_le (resp : Nat → Option Nat) (pg : Nat) (page : List Nat) :
    ∀ (fuel k : Nat), (retryLoop resp k pg page fuel).2.1.length ≤ fuel := by
  intro fuel
  induction fuel with
  | zero => intro k; simp [retryLoop]
  | succ t ih =>
    intro k
    unfold retryLoop
    cases hr : resp k with
    | none => simp
    | some c =>
      by_cases h21 : c = 0x21
      · simp [h21]
      · by_cases h40 : c = 0x40
        · simp only [h21, h40, if_false, if_true, List.length_cons]
          exact Nat.succ_le_succ (ih (k + 1))
        · simp [h21, h40]

set_option maxRecDepth 40000 in
/-- C4: the per-page retry loop transmits a page at most 3 times; a
`0x21` response ends with success after one send, `0x40 0x40 0x21` gives
3 sends and success, three `0x40` responses give 3 sends and failure, a
missing response (timeout) or any byte other than `0x21`/`0x40` aborts
after the one send; and at the download level, three `0x40` responses on
page 0 of a two-page image abort the download with only page 0's three
sends in the trace (no later page, no terminator), while `0x40 0x40
0x21` retries exactly twice more and the download succeeds. -/
theorem C4_thm :
    (∀ (resp : Nat → Option Nat) (k pg : Nat) (page : List Nat),
       (retryLoop resp k pg page 3).2.1.length ≤ 3) ∧
    (∀ (resp : Nat → Option Nat) (k pg : Nat) (page : List Nat),
       resp k = some 0x21 →
       retryLoop resp k pg page 3
         = (true, [Ev.send pg page (checksumByte page)], k + 1)) ∧
    (∀ (resp : Nat → Option Nat) (k pg : Nat) (page : List Nat),
       resp k = some 0x40 → resp (k + 1) = some 0x40 → resp (k + 2) = some 0x21 →
       retryLoop resp k pg page 3
         = (true, List.replicate 3 (Ev.send pg page (checksumByte page)), k + 3)) ∧
    (∀ (resp : Nat → Option Nat) (k pg : Nat) (page : List Nat),
       resp k = some 0x40 → resp (k + 1) = some 0x40 → resp (k + 2) = some 0x40 →
       retryLoop resp k pg page 3
         = (false, List.replicate 3 (Ev.send pg page (checksumByte page)), k + 3)) ∧
    (∀ (resp : Nat → Option Nat) (k pg : Nat) (page : List Nat),
       resp k = none →
       retryLoop resp k pg page 3
         = (false, [Ev.send pg page (checksumByte page)], k + 1)) ∧
    (∀ (resp : Nat → Option Nat) (k pg : Nat) (page : List Nat) (c : Nat),
       resp k = some c → c ≠ 0x21 → c ≠ 0x40 →
       retryLoop resp k pg page 3
         = (false, [Ev.send pg page (checksumByte page)], k + 1)) ∧
    downloadFlash ⟨256, 0, 128⟩ [(0, [1]), (128, [2])] (fun _ => some 0x40)
      = (false, List.replicate 3 (Ev.send 0 (1 :: List.replicate 127 0xFF) 130)) ∧
    downloadFlash ⟨256, 0, 128⟩ [(0, [1]), (128, [2])]
        (fun n => if n < 2 then some 0x40 else some 0x21)
      = (true, [Ev.send 0 (1 :: List.replicate 127 0xFF) 130,
                Ev.send 0 (1 :: List.replicate 127 0xFF) 130,
                Ev.send 0 (1 :: List.replicate 127 0xFF) 130,
                Ev.send 1 (2 :: List.replicate 127 0xFF) 131,
                Ev.fin]) := by
  refine ⟨?_, ?_, ?_, ?_, ?_, ?_, ?_, ?_⟩
  · intro resp k pg page
    exact retryLoop_length_le resp pg page 3 k
  · intro resp k pg page h
    simp [retryLoop, h]
  · intro resp k pg page h0 h1 h2
    have e1 : k + 1 + 1 = k + 2 := by omega
    have e2 : k + 2 + 1 = k + 3 := by omega
    simp [retryLoop, h0, h1, h2, e1, e2, List.replicate]
  · intro resp k pg page h0 h1 h2
    have e1 : k + 1 + 1 = k + 2 := by omega
    have e2 : k + 2 + 1 = k + 3 := by omega
    simp [retryLoop, h0, h1, h2, e1, e2, List.replicate]
  · intro resp k pg page h
    simp [retryLoop, h]
  · intro resp k pg page c h hc1 hc2
    simp [retryLoop, h, hc1, hc2]
  · decide
  · decide

/-- C4, witness: the single-ack conjunct at a concrete oracle: one send,
success, one response consumed. -/
theorem C4_witness :
    retryLoop (fun _ => some 0x21) 0 7 [1, 2] 3 = (true, [Ev.send 7 [1, 2] 3], 1) :=
  C4_thm.2.1 (fun _ => some 0x21) 0 7 [1, 2] rfl

theorem foldl_add_eq_sum (l : List Nat) : ∀ a : Nat,
    l.foldl (fun acc x => acc + x) a = a + l.sum := by
  induction l with
  | nil => intro a; simp
  | cons x xs ih =>
    intro a
    simp only [List.foldl_cons, List.sum_cons, ih]
    omega

theorem checksumByte_eq_sum (b : List Nat) : checksumByte b = b.sum % 256 := by
  unfold checksumByte
  rw [foldl_add_eq_sum]
  simp

theorem retryLoop_ev_mem (resp : Nat → Option Nat) (pg : Nat) (page : List Nat) :
    ∀ (fuel k : Nat) (ev : Ev), ev ∈ (retryLoop resp k pg page fuel).2.1 →
      ev = Ev.send pg page (checksumByte page) := by
  intro fuel
  induction fuel with
  | zero => intro k ev h; simp [retryLoop] at h
  | succ t ih =>
    intro k ev h
    unfold retryLoop at h
    cases hr : resp k with
    | none =>
      rw [hr] at h
      simpa using h
    | some c =>
      rw [hr] at h
      by_cases h21 : c = 0x21
      · simp [h21] at h
        exact h
      · by_cases h40 : c = 0x40
        · simp [h21, h40] at h
          rcases h with h | h
          · exact h
          · exact ih (k + 1) ev h
        · simp [h21, h40] at h
          exact h

theorem pageLoop_ev_mem (dl : List (Nat × List Nat)) (psz : Nat)
    (resp : Nat → Option Nat) :
    ∀ (pages : List Nat) (st : FillSt) (k : Nat) (ev : Ev),
      ev ∈ (pageLoop dl psz resp pages st k).2 →
      ev = Ev.fin ∨ ∃ pg buf, ev = Ev.send pg buf (checksumByte buf) := by
  intro pages
  induction pages with
  | nil =>
    intro st k ev h
    simp [pageLoop] at h
    exact Or.inl h
  | cons pg rest ih =>
    intro st k ev h
    unfold pageLoop at h
    by_cases hskip : st.addr ≥ pg * psz + psz
    · rw [if_pos hskip] at h
      exact ih st k ev h
    · rw [if_neg hskip] at h
      simp only [] at h
      by_cases hemp :
          (fillLoop dl (pg * psz) (pg * psz + psz) (dl.length + 1) (emptypage psz) st).1
            = emptypage psz
      · rw [if_pos hemp] at h
        exact ih _ k ev h
      · rw [if_neg hemp] at h
        by_cases hrc :
            (retryLoop resp k pg
              (fillLoop dl (pg * psz) (pg * psz + psz) (dl.length + 1) (emptypage psz) st).1
              3).1 = true
        · rw [if_pos hrc] at h
          simp only [List.mem_append] at h
          rcases h with h | h
          · exact Or.inr ⟨pg, _, retryLoop_ev_mem resp pg _ 3 k ev h⟩
          · exact ih _ _ ev h
        · rw [if_neg hrc] at h
          exact Or.inr ⟨pg, _, retryLoop_ev_mem resp pg _ 3 k ev h⟩

set_option maxRecDepth 10000 in
/-- C5: the checksum byte sent with every page transmission equals the
sum of all page-buffer bytes reduced modulo 256 — every send event in
any `downloadFlash` trace carries it — and concretely a page of 256 zero
bytes has checksum 0 and a page of 256 bytes each `0x01` has checksum
`0x00` (256 mod 256). -/
theorem C5_thm :
    (∀ b : List Nat, checksumByte b = b.sum % 256) ∧
    checksumByte (List.replicate 256 0) = 0 ∧
    checksumByte (List.replicate 256 1) = 0 ∧
    (∀ (proc : ProcGeom) (dl : List (Nat × List Nat)) (resp : Nat → Option Nat)
       (pg : Nat) (buf : List Nat) (c : Nat),
       Ev.send pg buf c ∈ (downloadFlash proc dl resp).2 → c = buf.sum % 256) := by
  refine ⟨checksumByte_eq_sum, by decide, by decide, ?_⟩
  intro proc dl resp pg buf c h
  unfold downloadFlash at h
  by_cases h1 : hexTooBig proc dl = true
  · simp [h1] at h
  · by_cases h2 : (proc.flash / proc.page) * proc.page ≠ proc.flash
    · simp [h1, h2] at h
    · by_cases h3 :
          (proc.flash / proc.page - proc.boot / proc.page) * proc.page + proc.boot
            ≠ proc.flash
      · simp [h1, h2, h3] at h
      · simp only [h1, h2, h3, if_false, if_neg] at h
        have h4 := pageLoop_ev_mem dl proc.page resp _ _ _ _ h
        rcases h4 with h4 | ⟨pg2, buf2, h4⟩
        · cases h4
        · injection h4 with e1 e2 e3
          subst e2
          subst e3
          exact checksumByte_eq_sum _

set_option maxRecDepth 10000 in
/-- C5, witness: the trace-level conjunct applied to a send event of a
concrete download (image byte 7 at address 0, geometry 256/0/128). -/
theorem C5_witness :
    (136 : Nat) = ((7 :: List.replicate 127 0xFF) : List Nat).sum % 256 :=
  C5_thm.2.2.2 ⟨256, 0, 128⟩ [(0, [7])] (fun _ => some 0x21) 0
    (7 :: List.replicate 127 0xFF) 136 (by decide)

set_option maxRecDepth 100000 in
/-- C7: end-to-end scenario with Descriptor {flash 32768, boot 1024,
page 128} and an image populated only at addresses 0 and 199: exactly
the two non-empty pages 0 and 1 are transmitted (every all-`0xFF` page
of the 248 usable pages is skipped), followed by the terminator — on the
wire, page number `0xFFFF` as the two bytes `0xFF 0xFF`, MSB first, with
no buffer or checksum following. -/
theorem C7_thm :
    downloadFlash ⟨32768, 1024, 128⟩ [(0, [0x12]), (199, [0x34])] (fun _ => some 0x21)
        = (true,
           [Ev.send 0 (0x12 :: List.replicate 127 0xFF) 147,
            Ev.send 1 (List.replicate 71 0xFF ++ 0x34 :: List.replicate 56 0xFF) 181,
            Ev.fin]) ∧
      wireBytes
          (downloadFlash ⟨32768, 1024, 128⟩ [(0, [0x12]), (199, [0x34])]
            (fun _ => some 0x21)).2
        = (([0, 0] ++ (0x12 :: List.replicate 127 0xFF) ++ [147])
            ++ ([0, 1] ++ (List.replicate 71 0xFF ++ 0x34 :: List.replicate 56 0xFF) ++ [181]))
          ++ [0xFF, 0xFF] := by
  constructor
  · decide
  · decide

theorem imageGet_cons (s : Nat) (d : List Nat) (t : List (Nat × List Nat)) (a : Nat) :
    imageGet ((s, d) :: t) a
      = if s ≤ a ∧ a < s + d.length then d[a - s]? else imageGet t a := by
  by_cases h : s ≤ a ∧ a < s + d.length
  · have hlt : a - s < d.length := by omega
    simp only [imageGet, List.findSome?_cons, if_pos h, List.getElem?_eq_getElem hlt]
  · simp only [imageGet, List.findSome?_cons, if_neg h]

theorem imageGet_none_of_lt (dl : List (Nat × List Nat)) (a : Nat)
    (h : ∀ r ∈ dl, a < r.1) : imageGet dl a = none := by
  induction dl with
  | nil => rfl
  | cons r t ih =>
    obtain ⟨s, d⟩ := r
    rw [imageGet_cons]
    have hs := h (s, d) (by simp)
    rw [if_neg (by simp only [] at hs; omega)]
    exact ih (fun r hr => h r (by simp [hr]))

theorem copyWhile_of_exhausted (startAddr endAddr : Nat) (data : List Nat)
    (fuel : Nat) (page : List Nat) (addr addrix : Nat)
    (h : data.length ≤ addrix) :
    copyWhile startAddr endAddr data fuel page addr addrix = (page, addr, addrix) := by
  cases fuel with
  | zero => rfl
  | succ t =>
    unfold copyWhile
    rw [dif_neg (by omega)]

theorem copyWhile_spec (startAddr endAddr : Nat) (data : List Nat) :
    ∀ (fuel : Nat) (page : List Nat) (addr addrix : Nat),
      data.length - addrix ≤ fuel →
      startAddr ≤ addr →
      endAddr ≤ startAddr + page.length →
      (copyWhile startAddr endAddr data fuel page addr addrix).2.1
          = addr + min (data.length - addrix) (endAddr - addr) ∧
      (copyWhile startAddr endAddr data fuel page addr addrix).2.2
          = addrix + min (data.length - addrix) (endAddr - addr) ∧
      (copyWhile startAddr endAddr data fuel page addr addrix).1.length = page.length ∧
      (∀ i,
        (copyWhile startAddr endAddr data fuel page addr addrix).1[i]? =
          if addr ≤ startAddr + i ∧
              startAddr + i < addr + min (data.length - addrix) (endAddr - addr)
          then data[addrix + (startAddr + i - addr)]?
          else page[i]?) := by
  intro fuel
  induction fuel with
  | zero =>
    intro page addr addrix hfuel hstart hend
    have hm : min (data.length - addrix) (endAddr - addr) = 0 := by omega
    rw [hm]
    refine ⟨by simp [copyWhile], by simp [copyWhile], by simp [copyWhile], ?_⟩
    intro i
    rw [if_neg (by omega)]
    simp [copyWhile]
  | succ t ih =>
    intro page addr addrix hfuel hstart hend
    by_cases h : addrix < data.length ∧ addr < endAddr
    · have hm : min (data.length - addrix) (endAddr - addr)
          = min (data.length - (addrix + 1)) (endAddr - (addr + 1)) + 1 := by omega
      have hwr : addr - startAddr < page.length := by omega
      have hstep : copyWhile startAddr endAddr data (t + 1) page addr addrix
          = copyWhile startAddr endAddr data t
              (page.set (addr - startAddr) data[addrix]) (addr + 1) (addrix + 1) := by
        conv_lhs => rw [copyWhile]
        rw [dif_pos h]
      obtain ⟨ha, hb, hc, hd⟩ :=
        ih (page.set (addr - startAddr) data[addrix]) (addr + 1) (addrix + 1)
          (by omega) (by omega) (by rw [List.length_set]; exact hend)
      rw [hstep]
      refine ⟨by rw [ha]; omega, by rw [hb]; omega, by rw [hc, List.length_set], ?_⟩
      intro i
      rw [hd i]
      by_cases h1 : addr + 1 ≤ startAddr + i ∧
          startAddr + i < addr + 1 + min (data.length - (addrix + 1)) (endAddr - (addr + 1))
      · rw [if_pos h1,
          if_pos (show addr ≤ startAddr + i ∧
            startAddr + i < addr + min (data.length - addrix) (endAddr - addr) by omega),
          show addrix + 1 + (startAddr + i - (addr + 1))
            = addrix + (startAddr + i - addr) by omega]
      · rw [if_neg h1]
        by_cases hca : startAddr + i = addr
        · rw [if_pos (show addr ≤ startAddr + i ∧
              startAddr + i < addr + min (data.length - addrix) (endAddr - addr) by omega),
            show i = addr - startAddr by omega, List.getElem?_set_self hwr,
            show addrix + (startAddr + (addr - startAddr) - addr) = addrix by omega,
            List.getElem?_eq_getElem h.1]
        · rw [if_neg (show ¬(addr ≤ startAddr + i ∧
              startAddr + i < addr + min (data.length - addrix) (endAddr - addr)) by omega),
            List.getElem?_set_ne (by omega)]
    · have hm : min (data.length - addrix) (endAddr - addr) = 0 := by omega
      have hstep : copyWhile startAddr endAddr data (t + 1) page addr addrix
          = (page, addr, addrix) := by
        conv_lhs => rw [copyWhile]
        rw [dif_neg h]
      rw [hstep, hm]
      refine ⟨by simp, by simp, rfl, ?_⟩
      intro i
      rw [if_neg (by omega)]

theorem wf_rec_le (dl : List (Nat × List Nat)) (hwf : WFimage dl) (i j : Nat)
    (hij : i < j) (hj : j < dl.length) :
    dl[i].1 + dl[i].2.length ≤ dl[j].1 :=
  List.pairwise_iff_getElem.mp hwf i j (by omega) hj hij

theorem imageGet_restOf_lt (dl : List (Nat × List Nat)) (hwf : WFimage dl) (st : FillSt)
    (hsh : ShapeInv dl st) (a : Nat) (ha : a < st.addr) :
    imageGet (restOf dl st) a = none := by
  unfold restOf
  by_cases hdix : st.dix < dl.length
  · rw [if_pos hdix]
    rcases hsh with ⟨h2, hdata, haix, haddr⟩ | ⟨hex, _⟩
    · apply imageGet_none_of_lt
      intro r hr
      rcases List.mem_cons.mp hr with hr | hr
      · rw [hr]
        exact ha
      · obtain ⟨j, hj, hjr⟩ := List.mem_iff_getElem.mp hr
        have hlen : st.dix + 1 + j < dl.length := by
          rw [List.length_drop] at hj
          omega
        have hre : r = dl[st.dix + 1 + j] := by
          rw [← hjr, List.getElem_drop]
        have hle := wf_rec_le dl hwf st.dix (st.dix + 1 + j) (by omega) hlen
        have hlen2 : st.data.length = dl[st.dix].2.length := by rw [hdata]
        rw [hre]
        omega
    · omega
  · rw [if_neg hdix]
    rfl

theorem imageGet_trim (s : Nat) (d : List Nat) (t : List (Nat × List Nat)) (m a : Nat)
    (hm : m ≤ d.length) (ha : s + m ≤ a) :
    imageGet ((s, d) :: t) a = imageGet ((s + m, d.drop m) :: t) a := by
  rw [imageGet_cons, imageGet_cons]
  by_cases h1 : s ≤ a ∧ a < s + d.length
  · rw [if_pos h1, if_pos (by rw [List.length_drop]; omega), List.getElem?_drop]
    congr 1
    omega
  · rw [if_neg h1, if_neg (by rw [List.length_drop]; omega)]

theorem imageGet_skip_head (s : Nat) (d : List Nat) (t : List (Nat × List Nat)) (a : Nat)
    (ha : s + d.length ≤ a) :
    imageGet ((s, d) :: t) a = imageGet t a := by
  rw [imageGet_cons, if_neg (by omega)]

theorem fillLoop_succ (dl : List (Nat × List Nat)) (startAddr endAddr fuel : Nat)
    (page : List Nat) (st : FillSt) :
    fillLoop dl startAddr endAddr (fuel + 1) page st
      = (let r := copyWhile startAddr endAddr st.data st.data.length page st.addr st.addrix
         if r.2.2 ≥ st.data.length then
           if h : st.dix + 1 < dl.length then
             if (dl[st.dix + 1]).1 ≥ endAddr then
               (r.1, ⟨st.dix + 1, (dl[st.dix + 1]).1, (dl[st.dix + 1]).2, 0⟩)
             else
               fillLoop dl startAddr endAddr fuel r.1
                 ⟨st.dix + 1, (dl[st.dix + 1]).1, (dl[st.dix + 1]).2, 0⟩
           else (r.1, ⟨st.dix + 1, r.2.1, st.data, r.2.2⟩)
         else (r.1, ⟨st.dix, r.2.1, st.data, r.2.2⟩)) := rfl

theorem fillLoop_spec (dl : List (Nat × List Nat)) (hwf : WFimage dl) (psz B : Nat) :
    ∀ (fuel : Nat) (st : FillSt) (page : List Nat),
      dl.length < st.dix + fuel →
      ShapeInv dl st →
      (st.dix < dl.length → B ≤ st.addr) →
      st.addr < B + psz →
      page.length = psz →
      (∀ i, i < psz → st.addr ≤ B + i → page[i]? = some 0xFF) →
      ShapeInv dl (fillLoop dl B (B + psz) fuel page st).2 ∧
      ((fillLoop dl B (B + psz) fuel page st).2.dix < dl.length →
         B + psz ≤ (fillLoop dl B (B + psz) fuel page st).2.addr) ∧
      (fillLoop dl B (B + psz) fuel page st).1.length = psz ∧
      (∀ i, i < psz →
        (fillLoop dl B (B + psz) fuel page st).1[i]? =
          if B + i < st.addr then page[i]?
          else some ((imageGet (restOf dl st) (B + i)).getD 0xFF)) ∧
      (∀ a, B + psz ≤ a →
        imageGet (restOf dl (fillLoop dl B (B + psz) fuel page st).2) a
          = imageGet (restOf dl st) a) := by
  intro fuel
  induction fuel with
  | zero =>
    intro st page hfuel hsh hge hlt hpage herased
    have hrnil : restOf dl st = [] := by
      unfold restOf
      rw [if_neg (by omega)]
    refine ⟨hsh, fun hd => absurd (show st.dix < dl.length from hd) (by omega),
      hpage, ?_, fun a _ => rfl⟩
    intro i hi
    by_cases hbi : B + i < st.addr
    · rw [if_pos hbi]
      rfl
    · rw [if_neg hbi, hrnil]
      show page[i]? = some ((none : Option Nat).getD 0xFF)
      rw [herased i hi (by omega)]
      rfl
  | succ t ih =>
    intro st page hfuel hsh hge hlt hpage herased
    rcases hsh with ⟨h2, hdata, haix, haddr⟩ | ⟨hex1, hex2⟩
    · -- active cursor on record st.dix
      have hB : B ≤ st.addr := hge h2
      obtain ⟨hca, hcb, hcc, hcd⟩ :=
        copyWhile_spec B (B + psz) st.data st.data.length page st.addr st.addrix
          (by omega) hB (by omega)
      set m := min (st.data.length - st.addrix) (B + psz - st.addr) with hmdef
      have hrest_eq : restOf dl st
          = (st.addr, st.data.drop st.addrix) :: dl.drop (st.dix + 1) := by
        unfold restOf
        rw [if_pos h2]
      have hvalue : ∀ i, i < psz → st.addr ≤ B + i → B + i < st.addr + m →
          imageGet (restOf dl st) (B + i)
            = st.data[st.addrix + (B + i - st.addr)]? := by
        intro i hi hi1 hi2
        rw [hrest_eq, imageGet_cons,
          if_pos (show st.addr ≤ B + i ∧
            B + i < st.addr + (st.data.drop st.addrix).length by
              rw [List.length_drop]; omega),
          List.getElem?_drop]
      rw [fillLoop_succ]
      simp only []
      by_cases hadv :
          (copyWhile B (B + psz) st.data st.data.length page st.addr st.addrix).2.2
            ≥ st.data.length
      · rw [if_pos hadv]
        have hm1 : m = st.data.length - st.addrix := by omega
        have hpast : ∀ b, st.addr + m ≤ b →
            imageGet (restOf dl st) b = imageGet (dl.drop (st.dix + 1)) b := by
          intro b hb
          rw [hrest_eq]
          apply imageGet_skip_head
          rw [List.length_drop]
          omega
        by_cases h3 : st.dix + 1 < dl.length
        · rw [dif_pos h3]
          have hnext := wf_rec_le dl hwf st.dix (st.dix + 1) (by omega) h3
          have hdlen : st.data.length = dl[st.dix].2.length := by rw [hdata]
          have hdropge : ∀ r, r ∈ dl.drop (st.dix + 1) → dl[st.dix + 1].1 ≤ r.1 := by
            intro r hr
            obtain ⟨j, hj, hjr⟩ := List.mem_iff_getElem.mp hr
            rw [List.length_drop] at hj
            have hre : r = dl[st.dix + 1 + j] := by rw [← hjr, List.getElem_drop]
            rcases Nat.eq_zero_or_pos j with hj0 | hj0
            · subst hj0
              simp only [Nat.add_zero] at hre
              rw [hre]
            · have hcc2 := wf_rec_le dl hwf (st.dix + 1) (st.dix + 1 + j) (by omega) (by omega)
              rw [hre]
              omega
          have hchain : ∀ b, st.addr + m ≤ b →
              imageGet (restOf dl st) b
                = imageGet (dl[st.dix + 1] :: dl.drop (st.dix + 2)) b := by
            intro b hb
            rw [hpast b hb, List.drop_eq_getElem_cons h3]
          have hrecord : st.addr + m = dl[st.dix].1 + dl[st.dix].2.length := by omega
          have hse : restOf dl ⟨st.dix + 1, dl[st.dix + 1].1, dl[st.dix + 1].2, 0⟩
              = dl[st.dix + 1] :: dl.drop (st.dix + 2) := by
            unfold restOf
            rw [if_pos (show st.dix + 1 < dl.length from h3)]
            rw [List.drop_zero, Prod.mk.eta]
          by_cases h4 : dl[st.dix + 1].1 ≥ B + psz
          · rw [if_pos h4]
            dsimp only
            refine ⟨Or.inl ⟨h3, rfl, Nat.zero_le _, (Nat.add_zero _).symm⟩,
              fun _ => h4, by rw [hcc]; exact hpage, ?_, ?_⟩
            · intro i hi
              by_cases hbi : B + i < st.addr
              · rw [if_pos hbi, hcd i, if_neg (by omega)]
              · rw [if_neg hbi]
                by_cases hin : B + i < st.addr + m
                · rw [hcd i, if_pos (by omega), hvalue i hi (by omega) hin,
                    List.getElem?_eq_getElem (by omega)]
                  rfl
                · rw [hcd i, if_neg (by omega), herased i hi (by omega),
                    hpast (B + i) (by omega),
                    imageGet_none_of_lt _ _ (fun r hr => by
                      have := hdropge r hr
                      omega)]
                  rfl
            · intro a haa
              rw [hse, ← hchain a (by omega)]
          · rw [if_neg h4]
            have hsh2 : ShapeInv dl ⟨st.dix + 1, dl[st.dix + 1].1, dl[st.dix + 1].2, 0⟩ :=
              Or.inl ⟨h3, rfl, Nat.zero_le _, (Nat.add_zero _).symm⟩
            obtain ⟨g1, g2, g3, g4, g5⟩ :=
              ih ⟨st.dix + 1, dl[st.dix + 1].1, dl[st.dix + 1].2, 0⟩
                (copyWhile B (B + psz) st.data st.data.length page st.addr st.addrix).1
                (show dl.length < st.dix + 1 + t by omega) hsh2
                (fun _ => show B ≤ dl[st.dix + 1].1 by omega)
                (show dl[st.dix + 1].1 < B + psz by omega)
                (by rw [hcc]; exact hpage)
                (by
                  intro i hi hia
                  have hia2 : dl[st.dix + 1].1 ≤ B + i := hia
                  rw [hcd i, if_neg (by omega)]
                  exact herased i hi (by omega))
            dsimp only at g4
            refine ⟨g1, g2, g3, ?_, ?_⟩
            · intro i hi
              rw [g4 i hi]
              by_cases hbi : B + i < st.addr
              · rw [if_pos (show B + i < dl[st.dix + 1].1 by omega),
                  if_pos hbi, hcd i, if_neg (by omega)]
              · rw [if_neg hbi]
                by_cases hin : B + i < st.addr + m
                · rw [if_pos (show B + i < dl[st.dix + 1].1 by omega),
                    hcd i, if_pos (by omega), hvalue i hi (by omega) hin,
                    List.getElem?_eq_getElem (by omega)]
                  rfl
                · by_cases hrec2 : B + i < dl[st.dix + 1].1
                  · rw [if_pos hrec2, hcd i, if_neg (by omega),
                      herased i hi (by omega), hpast (B + i) (by omega),
                      imageGet_none_of_lt _ _ (fun r hr => by
                        have := hdropge r hr
                        omega)]
                    rfl
                  · rw [if_neg hrec2, hse, ← hchain (B + i) (by omega)]
            · intro a haa
              rw [g5 a haa, hse, ← hchain a (by omega)]
        · rw [dif_neg h3]
          dsimp only
          have hdrnil : dl.drop (st.dix + 1) = [] :=
            List.drop_eq_nil_of_le (by omega)
          refine ⟨Or.inr ⟨by dsimp only; omega, by dsimp only; omega⟩,
            fun hd => absurd hd (by omega),
            by rw [hcc]; exact hpage, ?_, ?_⟩
          · intro i hi
            by_cases hbi : B + i < st.addr
            · rw [if_pos hbi, hcd i, if_neg (by omega)]
            · rw [if_neg hbi]
              by_cases hin : B + i < st.addr + m
              · rw [hcd i, if_pos (by omega), hvalue i hi (by omega) hin,
                  List.getElem?_eq_getElem (by omega)]
                rfl
              · rw [hcd i, if_neg (by omega), herased i hi (by omega),
                  hpast (B + i) (by omega), hdrnil]
                rfl
          · intro a haa
            have hs2nil : restOf dl ⟨st.dix + 1,
                (copyWhile B (B + psz) st.data st.data.length page st.addr st.addrix).2.1,
                st.data,
                (copyWhile B (B + psz) st.data st.data.length page st.addr st.addrix).2.2⟩
                = [] := by
              unfold restOf
              rw [if_neg (by dsimp only; omega)]
            rw [hs2nil, hpast a (by omega), hdrnil]
      · rw [if_neg hadv]
        dsimp only
        have hm2 : m = B + psz - st.addr := by omega
        refine ⟨Or.inl ⟨h2, hdata,
            show (copyWhile B (B + psz) st.data st.data.length page st.addr
                st.addrix).2.2 ≤ st.data.length by omega,
            show (copyWhile B (B + psz) st.data st.data.length page st.addr
                st.addrix).2.1 = dl[st.dix].1 +
                (copyWhile B (B + psz) st.data st.data.length page st.addr
                  st.addrix).2.2 by omega⟩,
          fun _ => by omega, by rw [hcc]; exact hpage, ?_, ?_⟩
        · intro i hi
          by_cases hbi : B + i < st.addr
          · rw [if_pos hbi, hcd i, if_neg (by omega)]
          · rw [if_neg hbi, hcd i, if_pos (by omega), hvalue i hi (by omega) (by omega),
              List.getElem?_eq_getElem (by omega)]
            rfl
        · intro a haa
          have hs2 : restOf dl ⟨st.dix,
              (copyWhile B (B + psz) st.data st.data.length page st.addr st.addrix).2.1,
              st.data,
              (copyWhile B (B + psz) st.data st.data.length page st.addr st.addrix).2.2⟩
              = ((copyWhile B (B + psz) st.data st.data.length page st.addr st.addrix).2.1,
                 st.data.drop
                   (copyWhile B (B + psz) st.data st.data.length page st.addr st.addrix).2.2)
                :: dl.drop (st.dix + 1) := by
            unfold restOf
            rw [if_pos (show st.dix < dl.length from h2)]
          rw [hs2, hrest_eq, hca, hcb, ← List.drop_drop]
          exact (imageGet_trim st.addr (st.data.drop st.addrix) _ m a
            (by rw [List.length_drop]; omega) (by omega)).symm
    · -- record list exhausted; the loop advances the index once and stops
      have hcw := copyWhile_of_exhausted B (B + psz) st.data st.data.length page
        st.addr st.addrix hex2
      have hrnil : restOf dl st = [] := by
        unfold restOf
        rw [if_neg (by omega)]
      rw [fillLoop_succ]
      simp only [hcw]
      rw [if_pos (by omega), dif_neg (by omega)]
      dsimp only
      refine ⟨Or.inr ⟨by dsimp only; omega, by dsimp only; omega⟩,
        fun hd => absurd hd (by omega), hpage, ?_, ?_⟩
      · intro i hi
        by_cases hbi : B + i < st.addr
        · rw [if_pos hbi]
        · rw [if_neg hbi, hrnil, herased i hi (by omega)]
          rfl
      · intro a haa
        have hs2nil : restOf dl ⟨st.dix + 1, st.addr, st.data, st.addrix⟩ = [] := by
          unfold restOf
          rw [if_neg (by dsimp only; omega)]
        rw [hs2nil, hrnil]

theorem restOf_init (dl : List (Nat × List Nat)) :
    restOf dl ⟨0, (dl.headD (0, [])).1, (dl.headD (0, [])).2, 0⟩ = dl := by
  cases dl with
  | nil =>
    unfold restOf
    rw [if_neg (by simp)]
  | cons r t =>
    unfold restOf
    rw [if_pos (by simp)]
    dsimp only
    rw [List.drop_zero]
    show (r.1, r.2) :: t.drop 0 = r :: t
    rw [List.drop_zero, Prod.mk.eta]

theorem scanSt_inv (dl : List (Nat × List Nat)) (hwf : WFimage dl) (psz : Nat) :
    ∀ pg, ShapeInv dl (scanSt dl psz pg) ∧
      ((scanSt dl psz pg).dix < dl.length → pg * psz ≤ (scanSt dl psz pg).addr) ∧
      (∀ a, pg * psz ≤ a → imageGet dl a = imageGet (restOf dl (scanSt dl psz pg)) a) := by
  intro pg
  induction pg with
  | zero =>
    refine ⟨?_, by intro _; omega, ?_⟩
    · cases dl with
      | nil => exact Or.inr ⟨Nat.le.refl, Nat.le.refl⟩
      | cons r t => exact Or.inl ⟨show (0:Nat) < t.length + 1 by omega, rfl, Nat.zero_le _, rfl⟩
    · intro a _
      rw [show scanSt dl psz 0 = ⟨0, (dl.headD (0, [])).1, (dl.headD (0, [])).2, 0⟩
        from rfl, restOf_init]
  | succ pg ih =>
    obtain ⟨hsh, hge, hag⟩ := ih
    have hmul : (pg + 1) * psz = pg * psz + psz := by ring
    by_cases hskip : (scanSt dl psz pg).addr ≥ pg * psz + psz
    · have hres : scanSt dl psz (pg + 1) = scanSt dl psz pg := by
        show (if (scanSt dl psz pg).addr ≥ pg * psz + psz then scanSt dl psz pg
          else (fillLoop dl (pg * psz) (pg * psz + psz) (dl.length + 1)
            (emptypage psz) (scanSt dl psz pg)).2) = scanSt dl psz pg
        rw [if_pos hskip]
      rw [hres, hmul]
      exact ⟨hsh, fun hd => by have := hge hd; omega, fun a ha => hag a (by omega)⟩
    · have hres : scanSt dl psz (pg + 1)
          = (fillLoop dl (pg * psz) (pg * psz + psz) (dl.length + 1)
              (emptypage psz) (scanSt dl psz pg)).2 := by
        show (if (scanSt dl psz pg).addr ≥ pg * psz + psz then scanSt dl psz pg
          else (fillLoop dl (pg * psz) (pg * psz + psz) (dl.length + 1)
            (emptypage psz) (scanSt dl psz pg)).2) = _
        rw [if_neg hskip]
      obtain ⟨g1, g2, g3, g4, g5⟩ :=
        fillLoop_spec dl hwf psz (pg * psz) (dl.length + 1) (scanSt dl psz pg)
          (emptypage psz) (by omega) hsh hge (by omega)
          (by rw [emptypage, List.length_replicate])
          (by
            intro i hi _
            rw [emptypage, List.getElem?_replicate, if_pos hi])
      rw [hres, hmul]
      exact ⟨g1, g2, fun a ha => by rw [hag a (by omega), ← g5 a (by omega)]⟩

/-- C6: for every well-formed sparse image (records sorted by start
address and pairwise disjoint, the representation of the design
document's address→byte mapping) and every page number, the page buffer
built by `downloadFlash`'s scan equals the specified page: at each
offset `i` it holds the image's byte at address `pg * psz + i` when that
address is populated and the erase value `0xFF` otherwise.  Since
`builtPage` is a pure function of the image and the page number alone,
re-running the page-build step on the same image and page number always
yields the same buffer. -/
theorem C6_thm (dl : List (Nat × List Nat)) (psz pg : Nat) (hwf : WFimage dl) :
    builtPage dl psz pg = specPage dl psz pg ∧
    (∀ i, i < psz →
      (builtPage dl psz pg)[i]? = some ((imageGet dl (pg * psz + i)).getD 0xFF)) := by
  obtain ⟨hsh, hge, hag⟩ := scanSt_inv dl hwf psz pg
  have hspec : ∀ n, n < psz →
      (specPage dl psz pg)[n]? = some ((imageGet dl (pg * psz + n)).getD 0xFF) := by
    intro n hn
    unfold specPage
    rw [List.getElem?_map, List.getElem?_range hn]
    rfl
  have hlenspec : (specPage dl psz pg).length = psz := by
    unfold specPage
    rw [List.length_map, List.length_range]
  have hmain : builtPage dl psz pg = specPage dl psz pg := by
    unfold builtPage
    simp only []
    by_cases hskip : (scanSt dl psz pg).addr ≥ pg * psz + psz
    · rw [if_pos hskip]
      apply List.ext_getElem?
      intro n
      by_cases hn : n < psz
      · rw [hspec n hn, emptypage, List.getElem?_replicate, if_pos hn]
        have hnone : imageGet dl (pg * psz + n) = none := by
          rw [hag (pg * psz + n) (by omega)]
          exact imageGet_restOf_lt dl hwf _ hsh _ (by omega)
        rw [hnone]
        rfl
      · rw [emptypage, List.getElem?_replicate, if_neg hn,
          List.getElem?_eq_none (show (specPage dl psz pg).length ≤ n by omega)]
    · rw [if_neg hskip]
      obtain ⟨g1, g2, g3, g4, g5⟩ :=
        fillLoop_spec dl hwf psz (pg * psz) (dl.length + 1) (scanSt dl psz pg)
          (emptypage psz) (by omega) hsh hge (by omega)
          (by rw [emptypage, List.length_replicate])
          (by
            intro i hi _
            rw [emptypage, List.getElem?_replicate, if_pos hi])
      apply List.ext_getElem?
      intro n
      by_cases hn : n < psz
      · rw [g4 n hn, hspec n hn]
        by_cases hbl : pg * psz + n < (scanSt dl psz pg).addr
        · rw [if_pos hbl, emptypage, List.getElem?_replicate, if_pos hn]
          have hnone : imageGet dl (pg * psz + n) = none := by
            rw [hag (pg * psz + n) (by omega)]
            exact imageGet_restOf_lt dl hwf _ hsh _ (by omega)
          rw [hnone]
          rfl
        · rw [if_neg hbl, hag (pg * psz + n) (by omega)]
      · rw [List.getElem?_eq_none (show (fillLoop dl (pg * psz) (pg * psz + psz)
            (dl.length + 1) (emptypage psz) (scanSt dl psz pg)).1.length ≤ n by omega),
          List.getElem?_eq_none (show (specPage dl psz pg).length ≤ n by omega)]
  exact ⟨hmain, fun i hi => by rw [hmain]; exact hspec i hi⟩

/-- C6, witness: the page-content theorem at the concrete image
populated at addresses 0 and 199, page size 128, page number 1. -/
theorem C6_witness :
    builtPage [(0, [0x12]), (199, [0x34])] 128 1
      = specPage [(0, [0x12]), (199, [0x34])] 128 1 :=
  (C6_thm [(0, [0x12]), (199, [0x34])] 128 1 (by unfold WFimage; decide)).1
